import Mathlib

/-!
Verification of the Tachyon bundle-construction and verification pipeline
(crates/tachyon). The development shallowly embeds the Rust sources:

* The Pallas scalar field `Fq` and base field `Fp` are the concrete prime
  fields used by `pasta_curves`.
* The value-commitment group (the subgroup of the Pallas curve spanned by the
  two hash-to-curve generators `V` and `R` of `value.rs`) is modelled as the
  free `Fq`-module on those two generators, `MPoint := Fq × Fq` with `V = (1,0)`
  and `R = (0,1)`.  Point addition/subtraction and scalar multiplication are
  the module operations; the identity (point at infinity) is `0`.  Every
  equation proved over this model is a consequence of the module axioms alone,
  hence also holds on the actual Pallas curve.
* External cryptographic primitives (BLAKE2b-512, the sealed `SpendAuth`
  basepoint group of `reddsa`, RedPallas signing/verification) are opaque
  parameters collected in a `Crypto` structure; theorems hold for every
  instantiation, and concrete instantiations are provided for witnesses.
-/

namespace Tachyon

/-- Order of the Pallas scalar field (the field `Fq` of `pasta_curves`). -/
def qPallas : ℕ :=
  28948022309329048855892746252171976963363056481941647379679742748393362948097

/-- Order of the Pallas base field (the field `Fp` of `pasta_curves`). -/
def pPallas : ℕ :=
  28948022309329048855892746252171976963363056481941560715954676764349967630337

/-- The Pallas scalar field `Fq`. -/
abbrev Fq := ZMod qPallas

/-- The Pallas base field `Fp`. -/
abbrev Fp := ZMod pPallas

instance : NeZero qPallas := ⟨by norm_num [qPallas]⟩

instance : NeZero pPallas := ⟨by norm_num [pPallas]⟩

/-- Model of the value-commitment subgroup of the Pallas curve: the free
`Fq`-module on the two generators `V` and `R` (`value.rs` derives them by
hash-to-curve under `"z.cash:Orchard-cv"`).  `0` models the point at
infinity (`EpAffine::identity()`). -/
abbrev MPoint := Fq × Fq

/-- Generator `V` for value commitments (`VALUE_COMMIT_V` in `value.rs`). -/
def VALUE_COMMIT_V : MPoint := (1, 0)

/-- Generator `R` for value commitments and binding signatures
(`VALUE_COMMIT_R` in `value.rs`). -/
def VALUE_COMMIT_R : MPoint := (0, 1)

/-- Scalar multiplication `[s]P` on the value-commitment group model
(`Ep * Fq` in `value.rs`). -/
def pointMul (s : Fq) (P : MPoint) : MPoint := (s * P.1, s * P.2)

/-- `value.rs::signed_to_scalar`: convert a signed integer to an `Fq`
element; negative values are handled by field negation of the absolute
value, exactly as in the source. -/
def signed_to_scalar (value : ℤ) : Fq :=
  if 0 ≤ value then (value.natAbs : Fq) else -(value.natAbs : Fq)

/-- A value-commitment trapdoor `rcv` is an `Fq` element
(`value.rs::CommitmentTrapdoor`). -/
abbrev CommitmentTrapdoor := Fq

/-- `value.rs::CommitmentTrapdoor::commit`:
`cv = [v]V + [rcv]R` with signed `v`. -/
def CommitmentTrapdoor.commit (rcv : CommitmentTrapdoor) (value : ℤ) : MPoint :=
  pointMul (signed_to_scalar value) VALUE_COMMIT_V + pointMul rcv VALUE_COMMIT_R

/-- `value.rs::Commitment::balance`: the deterministic zero-randomness
commitment `ValueCommit_0(v) = [v]V`, implemented in the source as
`CommitmentTrapdoor::default().commit(value)` with `default = Fq::ZERO`. -/
def Commitment.balance (value : ℤ) : MPoint :=
  CommitmentTrapdoor.commit (0 : Fq) value

/-- Little-endian byte encoding of a natural number on `k` bytes. -/
def leBytes : ℕ → ℕ → List UInt8
  | 0, _ => []
  | k + 1, n => UInt8.ofNat (n % 256) :: leBytes k (n / 256)

/-- `i64::to_le_bytes`: 8-byte little-endian two's-complement encoding. -/
def i64_to_le_bytes (v : ℤ) : List UInt8 :=
  leBytes 8 (v.emod (2 ^ 64)).toNat

/-- `constants.rs::SIGHASH_PERSONALIZATION = b"Tachyon-BndlHash"`. -/
def SIGHASH_PERSONALIZATION : List UInt8 := "Tachyon-BndlHash".toUTF8.toList

/-- `constants.rs::PRF_EXPAND_PERSONALIZATION = b"Zcash_ExpandSeed"`. -/
def PRF_EXPAND_PERSONALIZATION : List UInt8 := "Zcash_ExpandSeed".toUTF8.toList

/-- Opaque external cryptographic primitives used by the crate, with the
interface the sources rely on:

* `blake2b n p x` — BLAKE2b with `hash_length` `n`, 16-byte personalization
  `p`, over input `x` (`blake2b_simd`, a streaming hash: the digest depends
  only on the concatenation of the updates);
* `GPoint` — the Pallas curve group as used through `reddsa`'s sealed
  `SpendAuth` parameterization, with addition, negation, identity, the
  basepoint multiplication `mulG a = [a]G`, and the 32-byte compressed
  encoding `encodeG` (y-sign in byte 31, bit 7);
* `encodeP` — the 32-byte compressed encoding of value-commitment points;
* `spendVerify`/`spendSign` — RedPallas over the `SpendAuth` group
  (`reddsa::VerificationKey::verify` / `SigningKey::sign`, with the rng
  abstracted away);
* `bindingVerify`/`bindingSign` — RedPallas over the `Binding` group, whose
  generator is the value-commitment generator `R`, so a verification key is
  a point of the value-commitment group model `MPoint`;
* `bskValid` — whether `reddsa::SigningKey::<Binding>::try_from` accepts a
  scalar's canonical representation (`bundle.rs` maps its error to
  `BuildError::BalanceKey`). -/
structure Crypto where
  GPoint : Type
  Sig : Type
  BSig : Type
  blake2b : ℕ → List UInt8 → List UInt8 → List UInt8
  encodeP : MPoint → List UInt8
  encodeG : GPoint → List UInt8
  gzero : GPoint
  gadd : GPoint → GPoint → GPoint
  gneg : GPoint → GPoint
  mulG : Fq → GPoint
  spendVerify : GPoint → List UInt8 → Sig → Bool
  spendSign : Fq → List UInt8 → Sig
  bindingVerify : MPoint → List UInt8 → BSig → Bool
  bindingSign : Fq → List UInt8 → BSig
  bskValid : Fq → Bool

/-- State of a streaming BLAKE2b computation (`blake2b_simd::State`): the
parameters plus the bytes accumulated so far; `finalize` hashes their
concatenation. -/
structure Blake2bState where
  hash_length : ℕ
  personal : List UInt8
  data : List UInt8

/-- `blake2b_simd::State::update` — absorb more input bytes. -/
def Blake2bState.update (s : Blake2bState) (bytes : List UInt8) : Blake2bState :=
  { s with data := s.data ++ bytes }

/-- `blake2b_simd::State::finalize` — hash the accumulated input. -/
def Blake2bState.finalize (C : Crypto) (s : Blake2bState) : List UInt8 :=
  C.blake2b s.hash_length s.personal s.data

/-- `bundle.rs::SigHash` — the 64-byte digest newtype; the restricted
`Into<[u8; 64]>` is the `bytes` projection. -/
structure SigHash where
  bytes : List UInt8

/-- `bundle.rs::sighash`: BLAKE2b-512 (`hash_length(64)`) under
`SIGHASH_PERSONALIZATION`, updated with `cv_i || rk_i` for each effecting
pair in order and finally with the 8-byte little-endian `value_balance`. -/
def sighash (C : Crypto) (effecting_data : List (MPoint × C.GPoint))
    (value_balance : ℤ) : SigHash :=
  let state : Blake2bState := ⟨64, SIGHASH_PERSONALIZATION, []⟩
  let state := effecting_data.foldl
    (fun st cvrk => (st.update (C.encodeP cvrk.1)).update (C.encodeG cvrk.2)) state
  let state := state.update (i64_to_le_bytes value_balance)
  ⟨state.finalize C⟩

/-- The spec's formula for the bundle sighash (spec §3, "SigHash"): the
digest of the single concatenation
`cv_1 || rk_1 || ... || cv_n || rk_n || value_balance_le`.  Stated
separately from `sighash` (which follows the source's streaming updates) so
the two can be compared. -/
def sighash_spec_formula (C : Crypto) (effecting_data : List (MPoint × C.GPoint))
    (value_balance : ℤ) : SigHash :=
  ⟨C.blake2b 64 SIGHASH_PERSONALIZATION
    ((effecting_data.map (fun cvrk => C.encodeP cvrk.1 ++ C.encodeG cvrk.2)).join
      ++ i64_to_le_bytes value_balance)⟩

/-- `action.rs::Action` — the public data of a signed action. -/
structure Action (C : Crypto) where
  cv : MPoint
  rk : C.GPoint
  sig : C.Sig

/-- `primitives::Tachygram` — a single `Fp` element (nullifier or note
commitment). -/
abbrev Tachygram := Fp

/-- `primitives::Anchor` — a reference to an accumulator state (`Fp`). -/
abbrev Anchor := Fp

/-- `stamp.rs::Stampless` — marker for the absence of a stamp. -/
inductive Stampless
  | mk

/-- `stamp.rs::Stamp` — tachygram list, anchor and Ragu proof, with the
proof type `Pf` left opaque (the PCD system is out of scope). -/
structure Stamp (Pf : Type) where
  tachygrams : List Tachygram
  anchor : Anchor
  proof : Pf

/-- `bundle.rs::Bundle<S, V>` — actions, net value balance, binding
signature and the stamp slot. -/
structure Bundle (C : Crypto) (S : Type) (V : Type) where
  actions : List (Action C)
  value_balance : V
  binding_sig : C.BSig
  stamp : S

/-- Replace a bundle's stamp slot (used to state stamp-independence). -/
def Bundle.restamp {C : Crypto} {S V : Type} (b : Bundle C S V) {S2 : Type}
    (s : S2) : Bundle C S2 V :=
  ⟨b.actions, b.value_balance, b.binding_sig, s⟩

/-- Opaque `reddsa::Error` returned by signature verification. -/
inductive RedDsaError
  | invalidSignature

/-- `keys/public.rs::BindingVerificationKey::derive`:
`bvk = (⊕ᵢ cvᵢ) ⊖ ValueCommit₀(value_balance)`, the point sum seeded at the
identity (`value.rs`'s `iter::Sum`) minus the balance commitment.  The
source's encode/decode round-trip through `reddsa::VerificationKey` is the
identity on the underlying point and is elided. -/
def BindingVerificationKey.derive (C : Crypto) (actions : List (Action C))
    (value_balance : ℤ) : MPoint :=
  let cv_sum : MPoint := (actions.map (fun a => a.cv)).foldl (· + ·) 0
  cv_sum - Commitment.balance value_balance

/-- `bundle.rs::Bundle::sighash` — recompute the sighash from the stored
actions. -/
def Bundle.sighash {C : Crypto} {S : Type} (b : Bundle C S ℤ) : SigHash :=
  Tachyon.sighash C (b.actions.map (fun act => (act.cv, act.rk))) b.value_balance

/-- The per-action verification loop of
`bundle.rs::Bundle::verify_signatures` (step 4): check every action's
signature against the shared sighash, propagating the first error. -/
def verify_actions (C : Crypto) (sh : List UInt8) : List (Action C) →
    Except RedDsaError Unit
  | [] => .ok ()
  | a :: rest =>
    if C.spendVerify a.rk sh a.sig then verify_actions C sh rest
    else .error .invalidSignature

/-- `bundle.rs::Bundle::verify_signatures`: derive `bvk` from public data,
recompute the sighash, verify the binding signature, then verify every
action signature against the same sighash. -/
def Bundle.verify_signatures {C : Crypto} {S : Type} (b : Bundle C S ℤ) :
    Except RedDsaError Unit :=
  let bvk := BindingVerificationKey.derive C b.actions b.value_balance
  let sh := b.sighash
  if C.bindingVerify bvk sh.bytes b.binding_sig then
    verify_actions C sh.bytes b.actions
  else .error .invalidSignature

/-- `bundle.rs::Stamped::strip` — move the stamp out; every other field is
carried over unchanged. -/
def Stamped.strip {C : Crypto} {Pf V : Type} (b : Bundle C (Stamp Pf) V) :
    Bundle C Stampless V × Stamp Pf :=
  (⟨b.actions, b.value_balance, b.binding_sig, Stampless.mk⟩, b.stamp)

/-- Interpret a byte list as a little-endian natural number (the reading
`ff::FromUniformBytes` applies to its 64-byte input). -/
def leToNat (bytes : List UInt8) : ℕ :=
  bytes.foldr (fun b acc => b.toNat + 256 * acc) 0

/-- `Fq::from_uniform_bytes` — unbiased reduction of 64 little-endian bytes
into the scalar field. -/
def Fq.from_uniform_bytes (bytes : List UInt8) : Fq :=
  (leToNat bytes : Fq)

/-- `constants.rs::PrfExpand::ASK` — domain separator `0x09` for `ask`. -/
def PrfExpand.ASK : UInt8 := 0x09

/-- `constants.rs::PrfExpand::with`:
`BLAKE2b-512("Zcash_ExpandSeed", sk || domain_separator)`. -/
def PrfExpand.with (C : Crypto) (domain_separator : UInt8) (sk : List UInt8) :
    List UInt8 :=
  C.blake2b 64 PRF_EXPAND_PERSONALIZATION (sk ++ [domain_separator])

/-- The y-sign bit test of `keys/private.rs::derive_auth_private`:
`ak[31] >> 7 == 1` on the 32-byte compressed encoding. -/
def sign_bit (bytes : List UInt8) : Bool :=
  bytes.getD 31 0 >>> 7 == 1

/-- `keys/private.rs::SpendingKey::derive_auth_private`: reduce
`PRF^expand_sk(0x09)` into `Fq`, compute `ak = [ask]G` through reddsa,
and negate `ask` when the compressed encoding of `ak` has its top bit
set. -/
def SpendingKey.derive_auth_private (C : Crypto) (sk : List UInt8) : Fq :=
  let ask := Fq.from_uniform_bytes (PrfExpand.with C PrfExpand.ASK sk)
  let akBytes := C.encodeG (C.mulG ask)
  if sign_bit akBytes then -ask else ask

/-- `keys/private.rs::SpendAuthorizingKey::derive_auth_public`:
`ak = [ask]G` (`reddsa::VerificationKey::from` performs the basepoint
multiplication). -/
def SpendAuthorizingKey.derive_auth_public (C : Crypto) (ask : Fq) : C.GPoint :=
  C.mulG ask

/-- `keys/private.rs::SpendAuthorizingKey::derive_action_private`:
`rsk = ask + α` (`reddsa::SigningKey::randomize` adds the randomizer to
the signing scalar). -/
def SpendAuthorizingKey.derive_action_private (ask alpha : Fq) : Fq :=
  ask + alpha

/-- `keys/private.rs::ActionSigningKey::derive_action_public`:
`rk = [rsk]G`. -/
def ActionSigningKey.derive_action_public (C : Crypto) (rsk : Fq) : C.GPoint :=
  C.mulG rsk

/-- `keys/proof.rs::SpendValidatingKey::derive_action_public`:
`rk = ak + [α]G` (`reddsa::VerificationKey::randomize` adds `[α]G` to the
verification point). -/
def SpendValidatingKey.derive_action_public (C : Crypto) (ak : C.GPoint)
    (alpha : Fq) : C.GPoint :=
  C.gadd ak (C.mulG alpha)

/-- `keys/private.rs::ActionSigningKey::from_output_alpha`: for outputs the
signing scalar is `α` itself (`rsk = α`, no spend authority). -/
def ActionSigningKey.from_output_alpha (alpha : Fq) : Fq :=
  alpha

/-- `keys/randomizer.rs::ActionRandomizer::<Output>::derive_rk`: build the
output signing key from `α` and take its public key `[α]G`. -/
def ActionRandomizer.derive_rk (C : Crypto) (alpha : Fq) : C.GPoint :=
  ActionSigningKey.derive_action_public C (ActionSigningKey.from_output_alpha alpha)

/-- A degenerate instantiation of the crypto interface, used only to apply
theorems with hypotheses at a concrete input. -/
def trivialCrypto : Crypto where
  GPoint := Fq
  Sig := Unit
  BSig := Unit
  blake2b := fun n _ _ => List.replicate n 0
  encodeP := fun _ => []
  encodeG := fun _ => []
  gzero := 0
  gadd := fun x y => x + y
  gneg := fun x => -x
  mulG := fun x => x
  spendVerify := fun _ _ _ => true
  spendSign := fun _ _ => ()
  bindingVerify := fun _ _ _ => true
  bindingSign := fun _ _ => ()
  bskValid := fun _ => true

/-- An instantiation whose point encoding exercises both branches of the
sign-normalization contract, used to witness C5. -/
def signCrypto : Crypto where
  GPoint := ZMod 3
  Sig := Unit
  BSig := Unit
  blake2b := fun n _ _ => List.replicate n 0
  encodeP := fun _ => []
  encodeG := fun P => List.replicate 31 0 ++ [if P = 2 then (128 : UInt8) else 0]
  gzero := 0
  gadd := fun x y => x + y
  gneg := fun x => -x
  mulG := fun _ => 0
  spendVerify := fun _ _ _ => true
  spendSign := fun _ _ => ()
  bindingVerify := fun _ _ _ => true
  bindingSign := fun _ _ => ()
  bskValid := fun _ => true

/-- `constants.rs::NOTE_VALUE_MAX` — maximum note value in zatoshis. -/
def NOTE_VALUE_MAX : ℕ := 2100000000000000

/-- `note.rs::Value` — a note value newtype over `u64`. -/
structure Value where
  val : ℕ

/-- `note.rs::impl From<u64> for Value`: the `assert!(value <=
NOTE_VALUE_MAX)` guarding construction is modelled as returning `none`
(the panic rejects the value). -/
def Value.from_u64 (value : ℕ) : Option Value :=
  if value ≤ NOTE_VALUE_MAX then some ⟨value⟩ else none

/-- `note.rs::impl Into<i64> for Value` — the value as a signed integer. -/
def Value.to_i64 (v : Value) : ℤ :=
  (v.val : ℤ)

/-- `note.rs::Note` — `{pk, value, psi, rcm}`. -/
structure Note where
  pk : Fp
  value : Value
  psi : Fp
  rcm : Fq

/-- `witness.rs::ActionPrivate` as constructed by `bundle.rs::Plan::build`:
the per-action prover secret `{alpha, note, rcv}`. -/
structure ActionPrivate where
  alpha : Fq
  note : Note
  rcv : Fq

/-- `keys/proof.rs::ProofAuthorizingKey` — `(ak, nk)`. -/
structure ProofAuthorizingKey (C : Crypto) where
  ak : C.GPoint
  nk : Fp

/-- `bundle.rs::BuildError`. -/
inductive BuildError
  | BalanceKey
  | ProofInvalid
deriving DecidableEq

/-- Modelled from the spec: the opaque PCD proving boundary.  The spec
treats the proof system as an interface (`Proof::create`/`merge`/`verify`)
and `bundle.rs` calls `Stamp::prove_action` and `Stamp::prove_merge`,
whose definitions are not under `src/`; they are represented as opaque
operations producing and combining stamps, plus the Ragu verification
predicate used by `Proof::verify`. -/
structure Pcd (C : Crypto) where
  Proof : Type
  prove_action : ActionPrivate → Action C → Anchor → ProofAuthorizingKey C → Stamp Proof
  prove_merge : Stamp Proof → Stamp Proof → Stamp Proof
  verify : Proof → List (Action C) → List Tachygram → Anchor → Bool

/-- `bundle.rs::verify_stamp`: check the Ragu proof against the
accumulators reconstructed from public data, mapping failure to
`BuildError::ProofInvalid`. -/
def verify_stamp (C : Crypto) (P : Pcd C) (stamp : Stamp P.Proof)
    (actions : List (Action C)) : Except BuildError Unit :=
  if P.verify stamp.proof actions stamp.tachygrams stamp.anchor then .ok ()
  else .error .ProofInvalid

/-- Observable events of `Stamped::build`, in the order the corresponding
calls occur in the source: the stamp-verification outcome and the creation
of the binding signature over a message. -/
inductive BuildEvent
  | stampVerified (ok : Bool)
  | bindingSigned (msg : List UInt8)
deriving DecidableEq

/-- Result of `Stamped::build`: a stamped bundle, a `BuildError`, or a
panic (`expect`). -/
inductive BuildResult (C : Crypto) (Pf : Type)
  | ok (bundle : Bundle C (Stamp Pf) ℤ)
  | err (e : BuildError)
  | panicked (msg : String)

/-- The `while stamps.len() > 1` merge loop of `Stamped::build`, with the
`Vec` viewed from its top: `top` is the last element (popped first as
`right`), the list holds the elements below it (the next pop is `left`),
and `left.prove_merge(right)` is pushed back. -/
def merge_stamp_loop (C : Crypto) (P : Pcd C) :
    Stamp P.Proof → List (Stamp P.Proof) → Stamp P.Proof
  | top, [] => top
  | top, left :: rest => merge_stamp_loop C P (P.prove_merge left top) rest

/-- The trapdoor sum `bsk = ⊞ᵢ rcvᵢ` accumulated by `Stamped::build`. -/
def build_rcv_sum (C : Crypto)
    (actions_witnesses : List (Action C × ActionPrivate)) : Fq :=
  (actions_witnesses.map Prod.snd).foldl (fun acc w => acc + w.rcv) 0

/-- The per-action stamps produced by `Stamped::build` step 1
(`Stamp::prove_action` on each `(action, witness)` pair). -/
def build_action_stamps (C : Crypto) (P : Pcd C)
    (actions_witnesses : List (Action C × ActionPrivate)) (anchor : Anchor)
    (pak : ProofAuthorizingKey C) : List (Stamp P.Proof) :=
  ((actions_witnesses.map Prod.fst).zip (actions_witnesses.map Prod.snd)).map
    (fun aw => P.prove_action aw.2 aw.1 anchor pak)

/-- `bundle.rs::Stamped::build`.  The steps of the source in order:
accumulate `bsk` (`BuildError::BalanceKey` when `reddsa` rejects the sum;
the conditionally-compiled `debug_assert` fault check is elided), create a
stamp per action and merge pairwise (`Vec::pop` from the end is modelled
through `List.reverse`), pop the final stamp (`expect("at least one
action")` modelled as a panic outcome), verify the stamp, and only then
create the binding signature over the sighash of the actions.  Alongside
the result the function returns the trace of observable events. -/
def Stamped.build (C : Crypto) (P : Pcd C)
    (actions_witnesses : List (Action C × ActionPrivate))
    (value_balance : ℤ) (anchor : Anchor) (pak : ProofAuthorizingKey C) :
    BuildResult C P.Proof × List BuildEvent :=
  let actions := actions_witnesses.map Prod.fst
  let rcv_sum := build_rcv_sum C actions_witnesses
  if C.bskValid rcv_sum then
    let bsk := rcv_sum
    match (build_action_stamps C P actions_witnesses anchor pak).reverse with
    | [] => (.panicked ("at least one action"), [])
    | top :: below =>
      let stamp := merge_stamp_loop C P top below
      match verify_stamp C P stamp actions with
      | .error e => (.err e, [.stampVerified false])
      | .ok () =>
        let pairs := actions.map (fun act => (act.cv, act.rk))
        let sh := sighash C pairs value_balance
        (.ok ⟨actions, value_balance, C.bindingSign bsk sh.bytes, stamp⟩,
          [.stampVerified true, .bindingSigned sh.bytes])
  else (.err .BalanceKey, [])

/-- A proof-authorizing key for the trivial instantiation. -/
def trivialPak : ProofAuthorizingKey trivialCrypto := ⟨(0 : Fq), 0⟩

/-- A trivial PCD instantiation whose verification always succeeds. -/
def trivialPcd : Pcd trivialCrypto where
  Proof := Unit
  prove_action := fun _ _ _ _ => ⟨[], 0, ()⟩
  prove_merge := fun s _ => s
  verify := fun _ _ _ _ => true

/-- A PCD instantiation whose verification always fails, exercising the
`ProofInvalid` branch of `Stamped::build`. -/
def failPcd : Pcd trivialCrypto where
  Proof := Unit
  prove_action := fun _ _ _ _ => ⟨[], 0, ()⟩
  prove_merge := fun s _ => s
  verify := fun _ _ _ _ => false

/-- Modelled from the spec: `action::Effect` — the tag distinguishing
spends from outputs, matched by `bundle.rs::Plan::commit`; its defining
module is not under `src/`. -/
inductive Effect
  | spend
  | output

/-- Modelled from the spec: `action::Plan` — an assembled action plan with
its effect tag, note, per-action entropy θ and derived `rk`, as used by
`bundle.rs::Plan` (the defining module is not under `src/`; fields are the
ones `bundle.rs` reads: `effect`, `note`, `theta`, `rk`). -/
structure ActionPlan (C : Crypto) where
  effect : Effect
  note : Note
  theta : List UInt8
  rk : C.GPoint

/-- `bundle.rs::Plan` — action plans plus the net value balance. -/
structure Plan (C : Crypto) where
  actions : List (ActionPlan C)
  value_balance : ℤ

/-- The caller-provided CSPRNG, modelled as a stream of field elements
with a cursor: each draw returns the next element and advances. -/
structure ModelRng where
  stream : ℕ → Fq
  idx : ℕ

/-- `value.rs::CommitmentTrapdoor::random`.  The function body is
`todo!("random commitment trapdoor"); Self(Fq::random(rng))`; the
crate-local `todo!` macro prints and continues without panicking (as
documented at `note.rs`, its definition is not under `src/`), so the
function returns a fresh random scalar. -/
def CommitmentTrapdoor.random (rng : ModelRng) : CommitmentTrapdoor × ModelRng :=
  (rng.stream rng.idx, ⟨rng.stream, rng.idx + 1⟩)

/-- Modelled from the spec: `CommitmentTrapdoor::commit_spend` — spends
commit to the positive note value (spec §4.4: "spend positive"); the
defining code is not under `src/`. -/
def CommitmentTrapdoor.commit_spend (rcv : CommitmentTrapdoor) (note : Note) :
    MPoint :=
  rcv.commit note.value.to_i64

/-- Modelled from the spec: `CommitmentTrapdoor::commit_output` — outputs
commit to the negated note value (spec §4.4: "output negated"); the
defining code is not under `src/`. -/
def CommitmentTrapdoor.commit_output (rcv : CommitmentTrapdoor) (note : Note) :
    MPoint :=
  rcv.commit (-note.value.to_i64)

/-- The per-action body of `bundle.rs::Plan::commit`: sample `rcv`, commit
according to the action's effect. -/
def commit_one (C : Crypto) (action : ActionPlan C) (rcv : CommitmentTrapdoor) :
    MPoint :=
  match action.effect with
  | Effect.spend => rcv.commit_spend action.note
  | Effect.output => rcv.commit_output action.note

/-- The iterator of `bundle.rs::Plan::commit`, threading the rng through
the actions in plan order. -/
def commit_actions (C : Crypto) :
    List (ActionPlan C) → ModelRng →
      List (MPoint × CommitmentTrapdoor) × ModelRng
  | [], rng => ([], rng)
  | action :: rest, rng =>
    let drawn := CommitmentTrapdoor.random rng
    let cv := commit_one C action drawn.1
    let tail := commit_actions C rest drawn.2
    ((cv, drawn.1) :: tail.1, tail.2)

/-- `bundle.rs::Plan::commit` — generate one `(cv, rcv)` pair per action. -/
def Plan.commit {C : Crypto} (p : Plan C) (rng : ModelRng) :
    List (MPoint × CommitmentTrapdoor) × ModelRng :=
  commit_actions C p.actions rng

/-- `constants.rs::SPEND_ALPHA_PERSONALIZATION = b"Tachyon-Spend"`. -/
def SPEND_ALPHA_PERSONALIZATION : List UInt8 := "Tachyon-Spend".toUTF8.toList

/-- `Fp::to_repr` — canonical 32-byte little-endian encoding. -/
def Fp.to_repr (x : Fp) : List UInt8 :=
  leBytes 32 x.val

/-- `keys/private.rs::derive_alpha`:
`α = ToScalar(BLAKE2b-512(personalization, θ || cm))` (the `assert!` on
the personalization is satisfied at every call site modelled here). -/
def derive_alpha (C : Crypto) (personalization : List UInt8)
    (theta : List UInt8) (cm : Fp) : Fq :=
  Fq.from_uniform_bytes (C.blake2b 64 personalization (theta ++ Fp.to_repr cm))

/-- `keys/private.rs::ActionEntropy::spend_randomizer`. -/
def ActionEntropy.spend_randomizer (C : Crypto) (theta : List UInt8) (cm : Fp) :
    Fq :=
  derive_alpha C SPEND_ALPHA_PERSONALIZATION theta cm

/-- `custody.rs::SpendRequest` — per-spend authorization material. -/
structure SpendRequest where
  action_index : ℕ
  theta : List UInt8
  cm : Fp

/-- `action.rs::UnsignedAction` — the public `(cv, rk)` of an action
before signing. -/
structure UnsignedAction (C : Crypto) where
  cv : MPoint
  rk : C.GPoint

/-- The `SpendRandomizer::sign` primitive used by `custody.rs::Local`:
derive `rsk = ask + α` and sign the sighash with it. -/
def SpendRandomizer.sign (C : Crypto) (alpha : Fq) (ask : Fq) (sh : SigHash) :
    C.Sig :=
  C.spendSign (SpendAuthorizingKey.derive_action_private ask alpha) sh.bytes

/-- `custody.rs::impl Custody for Local` with `type Error = Infallible`
(modelled by `Empty`): compute the transaction-wide sighash from all
effecting data, then sign each spend with `rsk = ask + α`. -/
def Local.authorize (C : Crypto) (ask : Fq)
    (unsigned_actions : List (UnsignedAction C)) (value_balance : ℤ)
    (spends : List SpendRequest) : Except Empty (List C.Sig) :=
  let sh := sighash C (unsigned_actions.map (fun u => (u.cv, u.rk))) value_balance
  .ok (spends.map (fun spend =>
    SpendRandomizer.sign C (ActionEntropy.spend_randomizer C spend.theta spend.cm)
      ask sh))

/-- A concrete note for witnesses (the source tests' spend note with value
1000). -/
def exampleNote : Note := ⟨0, ⟨1000⟩, 0, 0⟩

/-- A concrete spend action plan over the trivial instantiation. -/
def exampleActionPlan : ActionPlan trivialCrypto :=
  ⟨Effect.spend, exampleNote, List.replicate 32 0, (0 : Fq)⟩

/-- A concrete one-action bundle plan. -/
def examplePlan : Plan trivialCrypto := ⟨[exampleActionPlan], 1000⟩

/-- A concrete rng stream. -/
def exampleRng : ModelRng := ⟨fun _ => 7, 0⟩

/-- A concrete signed action over the trivial instantiation. -/
def exampleSignedAction : Action trivialCrypto := ⟨(0, 0), (0 : Fq), ()⟩

/-- A concrete action witness. -/
def exampleActionPrivate : ActionPrivate := ⟨0, exampleNote, 0⟩

/-- `signed_to_scalar` agrees with the canonical ring-hom image of the
integer in `Fq`. -/
lemma signed_to_scalar_eq_intCast (value : ℤ) :
    signed_to_scalar value = (value : Fq) := by
  unfold signed_to_scalar
  by_cases h : 0 ≤ value
  · simp only [h, if_true]
    have h3 : (value.natAbs : ℤ) = value := by omega
    have h4 : ((value.natAbs : ℤ) : Fq) = (value : Fq) := by rw [h3]
    rw [Int.cast_natCast] at h4
    exact h4
  · simp only [h, if_false]
    have h3 : (value.natAbs : ℤ) = -value := by omega
    have h4 : ((value.natAbs : ℤ) : Fq) = ((-value : ℤ) : Fq) := by rw [h3]
    rw [Int.cast_natCast, Int.cast_neg] at h4
    rw [h4, neg_neg]

/-- Claim C3: for all i64 values `a`, `b` and all trapdoors, the
value-commitment homomorphism
`commit(a, rcv_a) + commit(b, rcv_b) − balance(a + b) = [rcv_a + rcv_b]·R`
holds (addition/subtraction being point addition/subtraction on the
value-commitment group, negative values committed via field negation). -/
theorem commit_homomorphism
    (a b : ℤ) (rcv_a rcv_b : CommitmentTrapdoor)
    (ha₁ : -(2 ^ 63) ≤ a) (ha₂ : a < 2 ^ 63)
    (hb₁ : -(2 ^ 63) ≤ b) (hb₂ : b < 2 ^ 63)
    (hab₁ : -(2 ^ 63) ≤ a + b) (hab₂ : a + b < 2 ^ 63) :
    rcv_a.commit a + rcv_b.commit b - Commitment.balance (a + b)
      = pointMul (rcv_a + rcv_b) VALUE_COMMIT_R := by
  unfold CommitmentTrapdoor.commit Commitment.balance CommitmentTrapdoor.commit
  simp only [signed_to_scalar_eq_intCast, pointMul, VALUE_COMMIT_V, VALUE_COMMIT_R]
  apply Prod.ext
  · push_cast
    simp only [Prod.fst_add, Prod.fst_sub]
    ring
  · push_cast
    simp only [Prod.snd_add, Prod.snd_sub]
    ring

/-- Witness for C3 at the concrete inputs of the source's own test
(`value.rs::commit_homomorphic_binding_property`): values 100 and 200. -/
theorem commit_homomorphism_witness :
    (-(2 ^ 63) ≤ (100 : ℤ) ∧ (100 : ℤ) < 2 ^ 63 ∧
      -(2 ^ 63) ≤ (200 : ℤ) ∧ (200 : ℤ) < 2 ^ 63 ∧
      -(2 ^ 63) ≤ (100 : ℤ) + 200 ∧ (100 : ℤ) + 200 < 2 ^ 63) ∧
    CommitmentTrapdoor.commit 3 100 + CommitmentTrapdoor.commit 5 200
        - Commitment.balance (100 + 200)
      = pointMul ((3 : Fq) + 5) VALUE_COMMIT_R := by
  refine ⟨by norm_num, ?_⟩
  exact commit_homomorphism 100 200 3 5 (by norm_num) (by norm_num)
    (by norm_num) (by norm_num) (by norm_num) (by norm_num)

/-- `verify_actions` succeeds exactly when every action's signature
verifies. -/
lemma verify_actions_ok_iff (C : Crypto) (sh : List UInt8)
    (l : List (Action C)) :
    verify_actions C sh l = .ok () ↔
      ∀ a ∈ l, C.spendVerify a.rk sh a.sig = true := by
  induction l with
  | nil => simp [verify_actions]
  | cons a rest ih =>
    by_cases hv : C.spendVerify a.rk sh a.sig
    · simp [verify_actions, hv, ih]
    · simp [verify_actions, hv]

/-- Claim C1: `verify_signatures` succeeds iff the binding signature
verifies under `bvk = (Σ cvᵢ) − ValueCommit₀(value_balance)` (recomputed
from the bundle's public action data) over the recomputed sighash, and
every action's signature verifies under its `rk` over the same sighash;
and the check never inspects the stamp slot, so it behaves identically on
stamped and stripped bundles. -/
theorem verify_signatures_spec (C : Crypto) (S : Type) (b : Bundle C S ℤ) :
    (b.verify_signatures = .ok () ↔
      (C.bindingVerify
          ((b.actions.map (fun a => a.cv)).foldl (· + ·) 0
            - Commitment.balance b.value_balance)
          b.sighash.bytes b.binding_sig = true ∧
        ∀ a ∈ b.actions, C.spendVerify a.rk b.sighash.bytes a.sig = true)) ∧
    (∀ (S2 : Type) (s : S2),
      (b.restamp s).verify_signatures = b.verify_signatures) := by
  constructor
  · unfold Bundle.verify_signatures BindingVerificationKey.derive
    by_cases hb : C.bindingVerify
        ((b.actions.map (fun a => a.cv)).foldl (· + ·) 0
          - Commitment.balance b.value_balance)
        b.sighash.bytes b.binding_sig
    · simp only [hb, if_true]
      simp [verify_actions_ok_iff, hb]
    · simp [hb]
  · intro S2 s
    rfl

/-- Claim C8: stripping a stamped bundle preserves the actions, value
balance and binding signature byte-for-byte, returns exactly the removed
stamp, and therefore leaves the result of `verify_signatures` unchanged. -/
theorem strip_preserves_bundle (C : Crypto) (Pf : Type)
    (b : Bundle C (Stamp Pf) ℤ) :
    (Stamped.strip b).1.actions = b.actions ∧
    (Stamped.strip b).1.value_balance = b.value_balance ∧
    (Stamped.strip b).1.binding_sig = b.binding_sig ∧
    (Stamped.strip b).2 = b.stamp ∧
    (Stamped.strip b).1.verify_signatures = b.verify_signatures :=
  ⟨rfl, rfl, rfl, rfl, rfl⟩

lemma Blake2bState.update_data (s : Blake2bState) (b : List UInt8) :
    (s.update b).data = s.data ++ b := rfl

lemma Blake2bState.update_hash_length (s : Blake2bState) (b : List UInt8) :
    (s.update b).hash_length = s.hash_length := rfl

lemma Blake2bState.update_personal (s : Blake2bState) (b : List UInt8) :
    (s.update b).personal = s.personal := rfl

/-- The accumulated data of the sighash fold is the concatenation of the
per-pair encodings. -/
lemma sighash_fold_data (C : Crypto) (l : List (MPoint × C.GPoint))
    (st : Blake2bState) :
    (l.foldl (fun s cvrk =>
        (s.update (C.encodeP cvrk.1)).update (C.encodeG cvrk.2)) st).data
      = st.data ++ (l.map (fun cvrk => C.encodeP cvrk.1 ++ C.encodeG cvrk.2)).join := by
  induction l generalizing st with
  | nil => simp
  | cons p rest ih =>
    simp only [List.foldl_cons, List.map_cons, List.join]
    rw [ih]
    simp [Blake2bState.update, List.append_assoc]

/-- The two folds also leave the hash parameters untouched. -/
lemma sighash_fold_params (C : Crypto) (l : List (MPoint × C.GPoint))
    (st : Blake2bState) :
    (l.foldl (fun s cvrk =>
        (s.update (C.encodeP cvrk.1)).update (C.encodeG cvrk.2)) st).hash_length
        = st.hash_length ∧
    (l.foldl (fun s cvrk =>
        (s.update (C.encodeP cvrk.1)).update (C.encodeG cvrk.2)) st).personal
        = st.personal := by
  induction l generalizing st with
  | nil => exact ⟨rfl, rfl⟩
  | cons p rest ih =>
    simpa [Blake2bState.update] using ih ((st.update (C.encodeP p.1)).update (C.encodeG p.2))

/-- Claim C2: the bundle sighash is the 64-byte BLAKE2b-512 digest under
personalization `"Tachyon-BndlHash"` of `cv_1 || rk_1 || ... || cv_n ||
rk_n` followed by the 8-byte little-endian `value_balance`, and it depends
only on the ordered `(cv, rk)` sequence and the balance — never on
signatures or the stamp. -/
theorem sighash_spec (C : Crypto)
    (hlen : ∀ n p x, (C.blake2b n p x).length = n) :
    (∀ (effecting_data : List (MPoint × C.GPoint)) (value_balance : ℤ),
      sighash C effecting_data value_balance
        = sighash_spec_formula C effecting_data value_balance ∧
      (sighash C effecting_data value_balance).bytes.length = 64) ∧
    (∀ (S S2 : Type) (b : Bundle C S ℤ) (b2 : Bundle C S2 ℤ),
      b.actions.map (fun a => (a.cv, a.rk))
          = b2.actions.map (fun a => (a.cv, a.rk)) →
      b.value_balance = b2.value_balance →
      b.sighash = b2.sighash) := by
  constructor
  · intro effecting_data value_balance
    constructor
    · unfold sighash sighash_spec_formula Blake2bState.finalize
      have hd := sighash_fold_data C effecting_data ⟨64, SIGHASH_PERSONALIZATION, []⟩
      have hp := sighash_fold_params C effecting_data ⟨64, SIGHASH_PERSONALIZATION, []⟩
      simp only [Blake2bState.update_hash_length, Blake2bState.update_personal,
        Blake2bState.update_data]
      rw [hp.1, hp.2, hd]
      simp
    · unfold sighash Blake2bState.finalize
      have hp := sighash_fold_params C effecting_data ⟨64, SIGHASH_PERSONALIZATION, []⟩
      simp only [Blake2bState.update_hash_length, Blake2bState.update_personal,
        Blake2bState.update_data]
      rw [hp.1]
      exact hlen _ _ _
  · intro S S2 b b2 hpairs hvb
    unfold Bundle.sighash
    rw [hpairs, hvb]

/-- Claim C5: `derive_auth_private` computes `ask` as the `Fq` reduction of
`BLAKE2b-512("Zcash_ExpandSeed", sk || 0x09)` and negates it exactly when
the compressed `ak = [ask]G` has bit 7 of byte 31 set, so that
`derive_auth_public (derive_auth_private sk)` always has y-sign bit 0.
The hypotheses are the contract of Pallas point compression: negation
flips the y-sign bit of any non-identity point, the identity encodes with
y-sign 0, and `[−a]G = −[a]G`. -/
theorem derive_auth_private_sign_normalized (C : Crypto) (sk : List UInt8)
    (hsk : sk.length = 32)
    (hneg : ∀ a : Fq, C.mulG (-a) = C.gneg (C.mulG a))
    (hflip : ∀ P : C.GPoint, P ≠ C.gzero →
      sign_bit (C.encodeG (C.gneg P)) = !sign_bit (C.encodeG P))
    (hzero : sign_bit (C.encodeG C.gzero) = false) :
    sign_bit (C.encodeG (SpendAuthorizingKey.derive_auth_public C
        (SpendingKey.derive_auth_private C sk))) = false ∧
    SpendingKey.derive_auth_private C sk =
      (let ask := Fq.from_uniform_bytes (PrfExpand.with C PrfExpand.ASK sk)
       if sign_bit (C.encodeG (C.mulG ask)) then -ask else ask) := by
  refine ⟨?_, rfl⟩
  unfold SpendingKey.derive_auth_private SpendAuthorizingKey.derive_auth_public
  set a := Fq.from_uniform_bytes (PrfExpand.with C PrfExpand.ASK sk) with ha
  by_cases hbit : sign_bit (C.encodeG (C.mulG a))
  · simp only [hbit, if_true]
    have hne : C.mulG a ≠ C.gzero := by
      intro heq
      rw [heq, hzero] at hbit
      exact Bool.false_ne_true hbit
    rw [hneg a, hflip (C.mulG a) hne, hbit]
    rfl
  · simp only [hbit, if_false]
    exact Bool.eq_false_iff.mpr hbit

/-- Claim C6: the signer-side `rk` (from `rsk = ask + α`) equals the
prover-side `rk` (from `ak + [α]G` with `ak = [ask]G`) for every `ask` and
`α`, and for outputs the `rk` derived from `rsk = α` is `[α]G`.  The
hypothesis is the basepoint-multiplication homomorphism of the curve
group. -/
theorem rk_consistency (C : Crypto)
    (hadd : ∀ a b : Fq, C.mulG (a + b) = C.gadd (C.mulG a) (C.mulG b)) :
    (∀ ask alpha : Fq,
      ActionSigningKey.derive_action_public C
          (SpendAuthorizingKey.derive_action_private ask alpha)
        = SpendValidatingKey.derive_action_public C
            (SpendAuthorizingKey.derive_auth_public C ask) alpha) ∧
    (∀ alpha : Fq, ActionRandomizer.derive_rk C alpha = C.mulG alpha) := by
  constructor
  · intro ask alpha
    unfold ActionSigningKey.derive_action_public
      SpendAuthorizingKey.derive_action_private
      SpendValidatingKey.derive_action_public
      SpendAuthorizingKey.derive_auth_public
    exact hadd ask alpha
  · intro alpha
    rfl

/-- Witness for C2: the hash-length contract holds for a concrete hash
function, and the sighash of a concrete effecting list agrees with the
spec formula and has 64 bytes. -/
theorem sighash_spec_witness :
    (∀ n p x, (trivialCrypto.blake2b n p x).length = n) ∧
    sighash trivialCrypto [((1, 2), (3 : Fq))] 300
      = sighash_spec_formula trivialCrypto [((1, 2), (3 : Fq))] 300 ∧
    (sighash trivialCrypto [((1, 2), (3 : Fq))] 300).bytes.length = 64 := by
  have hlen : ∀ n p x, (trivialCrypto.blake2b n p x).length = n := by
    intro n p x
    simp [trivialCrypto]
  exact ⟨hlen, ((sighash_spec trivialCrypto hlen).1 [((1, 2), (3 : Fq))] 300).1,
    ((sighash_spec trivialCrypto hlen).1 [((1, 2), (3 : Fq))] 300).2⟩

/-- Witness for C6: the homomorphism hypothesis holds for the trivial
instantiation, and both consistency equations follow at `ask = 1`,
`α = 2`. -/
theorem rk_consistency_witness :
    (∀ a b : Fq, trivialCrypto.mulG (a + b)
      = trivialCrypto.gadd (trivialCrypto.mulG a) (trivialCrypto.mulG b)) ∧
    ActionSigningKey.derive_action_public trivialCrypto
        (SpendAuthorizingKey.derive_action_private 1 2)
      = SpendValidatingKey.derive_action_public trivialCrypto
          (SpendAuthorizingKey.derive_auth_public trivialCrypto 1) 2 ∧
    ActionRandomizer.derive_rk trivialCrypto 2 = trivialCrypto.mulG 2 := by
  have hadd : ∀ a b : Fq, trivialCrypto.mulG (a + b)
      = trivialCrypto.gadd (trivialCrypto.mulG a) (trivialCrypto.mulG b) := by
    intro a b
    rfl
  exact ⟨hadd, (rk_consistency trivialCrypto hadd).1 1 2,
    (rk_consistency trivialCrypto hadd).2 2⟩

/-- Witness for C5: for a concrete instantiation satisfying the encoding
contract and the all-zero 32-byte spending key, the derived validating key
has y-sign bit 0. -/
theorem derive_auth_private_sign_normalized_witness :
    ((List.replicate 32 (0 : UInt8)).length = 32 ∧
     (∀ a : Fq, signCrypto.mulG (-a) = signCrypto.gneg (signCrypto.mulG a)) ∧
     (∀ P : ZMod 3, P ≠ signCrypto.gzero →
       sign_bit (signCrypto.encodeG (signCrypto.gneg P))
         = !sign_bit (signCrypto.encodeG P)) ∧
     sign_bit (signCrypto.encodeG signCrypto.gzero) = false) ∧
    sign_bit (signCrypto.encodeG (SpendAuthorizingKey.derive_auth_public signCrypto
      (SpendingKey.derive_auth_private signCrypto (List.replicate 32 0)))) = false := by
  have hneg : ∀ a : Fq, signCrypto.mulG (-a) = signCrypto.gneg (signCrypto.mulG a) := by
    intro a
    show (0 : ZMod 3) = -0
    simp
  have hflip : ∀ P : ZMod 3, P ≠ signCrypto.gzero →
      sign_bit (signCrypto.encodeG (signCrypto.gneg P))
        = !sign_bit (signCrypto.encodeG P) := by
    decide
  have hzero : sign_bit (signCrypto.encodeG signCrypto.gzero) = false := by
    decide
  exact ⟨⟨by simp, hneg, hflip, hzero⟩,
    (derive_auth_private_sign_normalized signCrypto (List.replicate 32 0)
      (by simp) hneg hflip hzero).1⟩

/-- Claim C9: constructing a note `Value` from a `u64` strictly greater
than `NOTE_VALUE_MAX` is rejected, and every `u64` up to and including
`NOTE_VALUE_MAX` is accepted. -/
theorem value_bound_inclusive (value : ℕ) (hu64 : value < 2 ^ 64) :
    ((Value.from_u64 value).isSome ↔ value ≤ NOTE_VALUE_MAX) ∧
    (value ≤ NOTE_VALUE_MAX → Value.from_u64 value = some ⟨value⟩) ∧
    (NOTE_VALUE_MAX < value → Value.from_u64 value = none) := by
  refine ⟨?_, ?_, ?_⟩
  · unfold Value.from_u64
    by_cases h : value ≤ NOTE_VALUE_MAX <;> simp [h]
  · intro h
    simp [Value.from_u64, h]
  · intro h
    simp [Value.from_u64, Nat.not_le.mpr h]

/-- Witness for C9: the bound is inclusive at `NOTE_VALUE_MAX` and
exclusive immediately above it. -/
theorem value_bound_inclusive_witness :
    (NOTE_VALUE_MAX < 2 ^ 64 ∧ NOTE_VALUE_MAX + 1 < 2 ^ 64) ∧
    Value.from_u64 NOTE_VALUE_MAX = some ⟨NOTE_VALUE_MAX⟩ ∧
    Value.from_u64 (NOTE_VALUE_MAX + 1) = none := by
  refine ⟨⟨by norm_num [NOTE_VALUE_MAX], by norm_num [NOTE_VALUE_MAX]⟩, ?_, ?_⟩
  · exact (value_bound_inclusive NOTE_VALUE_MAX
      (by norm_num [NOTE_VALUE_MAX])).2.1 (le_refl _)
  · exact (value_bound_inclusive (NOTE_VALUE_MAX + 1)
      (by norm_num [NOTE_VALUE_MAX])).2.2 (Nat.lt_succ_self _)

/-- `Stamped::build` when `reddsa` rejects the trapdoor sum: it fails with
`BalanceKey` before any stamp work. -/
lemma build_balance_key (C : Crypto) (P : Pcd C)
    (aws : List (Action C × ActionPrivate)) (vb : ℤ) (anchor : Anchor)
    (pak : ProofAuthorizingKey C)
    (h : C.bskValid (build_rcv_sum C aws) = false) :
    Stamped.build C P aws vb anchor pak = (.err .BalanceKey, []) := by
  unfold Stamped.build
  simp [h]

/-- `Stamped::build` when the per-action proving loop produced no stamps:
the final `expect` panics. -/
lemma build_no_stamps (C : Crypto) (P : Pcd C)
    (aws : List (Action C × ActionPrivate)) (vb : ℤ) (anchor : Anchor)
    (pak : ProofAuthorizingKey C)
    (h : C.bskValid (build_rcv_sum C aws) = true)
    (hm : (build_action_stamps C P aws anchor pak).reverse = []) :
    Stamped.build C P aws vb anchor pak
      = (.panicked ("at least one action"), []) := by
  unfold Stamped.build
  rw [hm]
  simp [h]

/-- `Stamped::build` when stamp verification fails. -/
lemma build_verify_false (C : Crypto) (P : Pcd C)
    (aws : List (Action C × ActionPrivate)) (vb : ℤ) (anchor : Anchor)
    (pak : ProofAuthorizingKey C) (top : Stamp P.Proof)
    (below : List (Stamp P.Proof))
    (h : C.bskValid (build_rcv_sum C aws) = true)
    (hm : (build_action_stamps C P aws anchor pak).reverse = top :: below)
    (hv : P.verify (merge_stamp_loop C P top below).proof (aws.map Prod.fst)
        (merge_stamp_loop C P top below).tachygrams
        (merge_stamp_loop C P top below).anchor = false) :
    Stamped.build C P aws vb anchor pak
      = (.err .ProofInvalid, [.stampVerified false]) := by
  unfold Stamped.build
  rw [hm]
  simp [h, verify_stamp, hv]

/-- `Stamped::build` when stamp verification succeeds: the binding
signature over the bundle sighash is created afterwards. -/
lemma build_verify_true (C : Crypto) (P : Pcd C)
    (aws : List (Action C × ActionPrivate)) (vb : ℤ) (anchor : Anchor)
    (pak : ProofAuthorizingKey C) (top : Stamp P.Proof)
    (below : List (Stamp P.Proof))
    (h : C.bskValid (build_rcv_sum C aws) = true)
    (hm : (build_action_stamps C P aws anchor pak).reverse = top :: below)
    (hv : P.verify (merge_stamp_loop C P top below).proof (aws.map Prod.fst)
        (merge_stamp_loop C P top below).tachygrams
        (merge_stamp_loop C P top below).anchor = true) :
    Stamped.build C P aws vb anchor pak
      = (.ok ⟨aws.map Prod.fst, vb,
            C.bindingSign (build_rcv_sum C aws)
              (sighash C ((aws.map Prod.fst).map (fun act => (act.cv, act.rk)))
                vb).bytes,
            merge_stamp_loop C P top below⟩,
         [.stampVerified true,
          .bindingSigned
            (sighash C ((aws.map Prod.fst).map (fun act => (act.cv, act.rk)))
              vb).bytes]) := by
  unfold Stamped.build
  rw [hm]
  simp [h, verify_stamp, hv]

/-- Claim C4: in `Stamped::build` the binding signature is emitted only
after the stamp has been verified: a `bindingSigned` event occurs only in
a trace that records a successful `stampVerified true` immediately before
it; when verification fails the build returns `Err(ProofInvalid)` and no
binding signature is ever produced; and on success the binding signature
is created, after verification, over the sighash of the bundle's own
actions — the digest the action signatures cover. -/
theorem build_signs_only_after_stamp_verified (C : Crypto) (P : Pcd C)
    (aws : List (Action C × ActionPrivate)) (vb : ℤ) (anchor : Anchor)
    (pak : ProofAuthorizingKey C) :
    (∀ msg, BuildEvent.bindingSigned msg ∈ (Stamped.build C P aws vb anchor pak).2 →
      (Stamped.build C P aws vb anchor pak).2
        = [BuildEvent.stampVerified true, BuildEvent.bindingSigned msg]) ∧
    (BuildEvent.stampVerified false ∈ (Stamped.build C P aws vb anchor pak).2 →
      (Stamped.build C P aws vb anchor pak).1 = .err .ProofInvalid ∧
      ∀ msg, BuildEvent.bindingSigned msg ∉ (Stamped.build C P aws vb anchor pak).2) ∧
    (∀ b, (Stamped.build C P aws vb anchor pak).1 = .ok b →
      b.actions = aws.map Prod.fst ∧
      b.value_balance = vb ∧
      b.binding_sig = C.bindingSign (build_rcv_sum C aws)
        (sighash C (b.actions.map (fun act => (act.cv, act.rk))) vb).bytes ∧
      (Stamped.build C P aws vb anchor pak).2
        = [BuildEvent.stampVerified true,
           BuildEvent.bindingSigned
             (sighash C (b.actions.map (fun act => (act.cv, act.rk))) vb).bytes]) := by
  by_cases hbsk : C.bskValid (build_rcv_sum C aws)
  · cases hm : (build_action_stamps C P aws anchor pak).reverse with
    | nil =>
      rw [build_no_stamps C P aws vb anchor pak hbsk hm]
      simp
    | cons top below =>
      by_cases hv : P.verify (merge_stamp_loop C P top below).proof
          (aws.map Prod.fst) (merge_stamp_loop C P top below).tachygrams
          (merge_stamp_loop C P top below).anchor
      · rw [build_verify_true C P aws vb anchor pak top below hbsk hm hv]
        refine ⟨?_, ?_, ?_⟩
        · intro msg hmsg
          simp at hmsg
          simp [hmsg]
        · intro hfalse
          simp at hfalse
        · intro b hb
          simp only [BuildResult.ok.injEq] at hb
          subst hb
          exact ⟨rfl, rfl, rfl, rfl⟩
      · rw [build_verify_false C P aws vb anchor pak top below hbsk hm
          (Bool.eq_false_iff.mpr hv)]
        refine ⟨?_, ?_, ?_⟩
        · intro msg hmsg
          simp at hmsg
        · intro _
          refine ⟨rfl, ?_⟩
          intro msg hmsg
          simp at hmsg
        · intro b hb
          simp at hb
  · rw [build_balance_key C P aws vb anchor pak (Bool.eq_false_iff.mpr hbsk)]
    simp

/-- Claim C10: `Stamped::build` on an empty `(action, witness)` vector
(with a trapdoor sum that `reddsa` accepts as a binding signing key) does
not return a `BuildError`: it panics at the final stamp extraction, the
`expect("at least one action")`. -/
theorem build_empty_input_panics (C : Crypto) (P : Pcd C) (vb : ℤ)
    (anchor : Anchor) (pak : ProofAuthorizingKey C)
    (hbsk : C.bskValid 0 = true) :
    Stamped.build C P [] vb anchor pak = (.panicked ("at least one action"), []) ∧
    ∀ e, (Stamped.build C P [] vb anchor pak).1 ≠ .err e := by
  have heq : Stamped.build C P [] vb anchor pak
      = (.panicked ("at least one action"), []) := by
    apply build_no_stamps
    · exact hbsk
    · rfl
  refine ⟨heq, ?_⟩
  intro e
  rw [heq]
  simp

/-- Witness for C10: the trivial instantiation accepts the zero scalar as
a binding signing key, and the build of an empty action list panics. -/
theorem build_empty_input_panics_witness :
    trivialCrypto.bskValid 0 = true ∧
    (Stamped.build trivialCrypto trivialPcd [] 0 0 trivialPak
        = (.panicked ("at least one action"), []) ∧
      ∀ e, (Stamped.build trivialCrypto trivialPcd [] 0 0 trivialPak).1 ≠ .err e) :=
  ⟨rfl, build_empty_input_panics trivialCrypto trivialPcd 0 0 trivialPak rfl⟩

/-- `commit_actions` produces one pair per action, in order. -/
lemma commit_actions_length (C : Crypto) (l : List (ActionPlan C))
    (rng : ModelRng) :
    (commit_actions C l rng).1.length = l.length := by
  induction l generalizing rng with
  | nil => rfl
  | cons action rest ih =>
    simp [commit_actions, ih]

/-- The `i`-th pair of `commit_actions` is built from the `i`-th action
and the `i`-th trapdoor drawn from the rng. -/
lemma commit_actions_getElem (C : Crypto) (l : List (ActionPlan C))
    (rng : ModelRng) (i : ℕ) (a : ActionPlan C) (ha : l[i]? = some a) :
    (commit_actions C l rng).1[i]?
      = some (commit_one C a (rng.stream (rng.idx + i)),
          rng.stream (rng.idx + i)) := by
  induction l generalizing rng i with
  | nil => simp at ha
  | cons action rest ih =>
    cases i with
    | zero =>
      simp at ha
      subst ha
      simp [commit_actions, CommitmentTrapdoor.random]
    | succ n =>
      simp only [List.getElem?_cons_succ] at ha
      have := ih ⟨rng.stream, rng.idx + 1⟩ n ha
      simp only [commit_actions, CommitmentTrapdoor.random, List.getElem?_cons_succ]
      rw [this]
      have harith : rng.idx + 1 + n = rng.idx + (n + 1) := by omega
      rw [harith]

/-- Claim C7: `CommitmentTrapdoor::random` returns a fresh trapdoor
without failing (the crate-local `todo!` does not panic), `Plan::commit`
therefore succeeds and yields exactly one `(cv, rcv)` pair per action in
plan order (the `i`-th pair commits the `i`-th action's note under the
`i`-th freshly drawn trapdoor), and `Local` custody authorization is
infallible (`type Error = Infallible`). -/
theorem plan_commit_local_infallible (C : Crypto) :
    (∀ rng : ModelRng, CommitmentTrapdoor.random rng
        = (rng.stream rng.idx, ⟨rng.stream, rng.idx + 1⟩)) ∧
    (∀ (p : Plan C) (rng : ModelRng),
      (p.commit rng).1.length = p.actions.length ∧
      ∀ (i : ℕ) (a : ActionPlan C), p.actions[i]? = some a →
        (p.commit rng).1[i]?
          = some (commit_one C a (rng.stream (rng.idx + i)),
              rng.stream (rng.idx + i))) ∧
    (∀ (ask : Fq) (unsigned_actions : List (UnsignedAction C))
        (value_balance : ℤ) (spends : List SpendRequest),
      ∃ sigs, Local.authorize C ask unsigned_actions value_balance spends
        = .ok sigs) := by
  refine ⟨fun rng => rfl, ?_, ?_⟩
  · intro p rng
    exact ⟨commit_actions_length C p.actions rng,
      fun i a ha => commit_actions_getElem C p.actions rng i a ha⟩
  · intro ask unsigned_actions value_balance spends
    exact ⟨_, rfl⟩

/-- Witness for C7: at a concrete one-spend plan, `commit` yields exactly
one pair, it is the spend commitment under the first drawn trapdoor, and
`Local::authorize` succeeds. -/
theorem plan_commit_local_infallible_witness :
    (examplePlan.commit exampleRng).1.length = examplePlan.actions.length ∧
    examplePlan.actions[0]? = some exampleActionPlan ∧
    (examplePlan.commit exampleRng).1[0]?
      = some (commit_one trivialCrypto exampleActionPlan
          (exampleRng.stream (exampleRng.idx + 0)),
          exampleRng.stream (exampleRng.idx + 0)) ∧
    (∃ sigs, Local.authorize trivialCrypto 1 [] 1000 [] = .ok sigs) := by
  refine ⟨((plan_commit_local_infallible trivialCrypto).2.1 examplePlan exampleRng).1,
    rfl,
    ((plan_commit_local_infallible trivialCrypto).2.1 examplePlan exampleRng).2 0
      exampleActionPlan rfl,
    (plan_commit_local_infallible trivialCrypto).2.2 1 [] 1000 []⟩

/-- Witness for C4: with a PCD whose verification fails, building one
concrete action yields `Err(ProofInvalid)` and a trace with no binding
signature. -/
theorem build_signs_only_after_stamp_verified_witness :
    (BuildEvent.stampVerified false
      ∈ (Stamped.build trivialCrypto failPcd
          [(exampleSignedAction, exampleActionPrivate)] 0 0 trivialPak).2) ∧
    ((Stamped.build trivialCrypto failPcd
        [(exampleSignedAction, exampleActionPrivate)] 0 0 trivialPak).1
        = .err .ProofInvalid ∧
      ∀ msg, BuildEvent.bindingSigned msg
        ∉ (Stamped.build trivialCrypto failPcd
            [(exampleSignedAction, exampleActionPrivate)] 0 0 trivialPak).2) := by
  have htrace : (Stamped.build trivialCrypto failPcd
      [(exampleSignedAction, exampleActionPrivate)] 0 0 trivialPak).2
      = [BuildEvent.stampVerified false] := rfl
  have hmem : BuildEvent.stampVerified false
      ∈ (Stamped.build trivialCrypto failPcd
          [(exampleSignedAction, exampleActionPrivate)] 0 0 trivialPak).2 := by
    rw [htrace]
    exact List.mem_singleton.mpr rfl
  exact ⟨hmem, (build_signs_only_after_stamp_verified trivialCrypto failPcd
    [(exampleSignedAction, exampleActionPrivate)] 0 0 trivialPak).2.1 hmem⟩

end Tachyon

